import Mathlib

/-!
Verification development for the Tide search engine core of crux-toolkit.

Each section embeds one part of the C++ source shallowly in Lean:
* `src/src/app/tide/spectrum_preprocess2.cc` — spectrum preprocessing
  (`SubtractBackground`, `PreprocessSpectrum`, `MakeInteger`, `ComputeCache`,
  `DotProd`),
* `src/src/app/TideSearchApplication.cpp` — the search application
  (`getNegativeIsotopeErrors`, `computeWindow`, `calcScoreCount`,
  the exact-p-value dispatch, `collectScoresCompiled`).

Machine doubles are modelled by exact rationals, machine ints by `ℤ`/`ℕ`
with in-range use (the C code keeps all values far from overflow).
External constants that live in headers outside the sources at hand
(`MAX_XCORR_OFFSET`, `NUM_SPECTRUM_REGIONS`, `MASS_PROTON`, bin widths,
`MassConstants` bin conversions) are taken as explicit parameters.
-/

set_option autoImplicit false

namespace CruxTide

/-! ### SubtractBackground (spectrum_preprocess2.cc, lines 39-57)

`static void SubtractBackground(double* observed, int end)` subtracts from
each bin the average of a window of half-width `MAX_XCORR_OFFSET` around it,
computed through an array of running sums.  The half-width is a header
constant not present in the sources here, so it is a parameter `offset`. -/

/-- Running total of `observed` over indices `< k` (the value accumulated in
`total` after `k` iterations of the first loop of `SubtractBackground`). -/
def sumTo (observed : ℕ → ℚ) : ℕ → ℚ
  | 0 => 0
  | k + 1 => sumTo observed k + observed k

/-- Entry `k` of the `partial_sums` vector: for `k < end` it holds the running
total after including `observed[k]`; the final entry `partial_sums[end]` holds
the grand total. -/
def runningSums (observed : ℕ → ℚ) (endN k : ℕ) : ℚ :=
  if k < endN then sumTo observed (k + 1) else sumTo observed endN

/-- The value of bin `i` after `SubtractBackground(observed, end)`:
`observed[i] -= multiplier * (partial_sums[right] - partial_sums[left] - observed[i])`
with `multiplier = 1 / (MAX_XCORR_OFFSET * 2)`,
`right = min(end, i + MAX_XCORR_OFFSET)` and
`left = max(0, i - MAX_XCORR_OFFSET - 1)`. -/
def subtractBackground (observed : ℕ → ℚ) (endN offset i : ℕ) : ℚ :=
  let multiplier : ℚ := 1 / (offset * 2)
  let rightIndex : ℕ := min endN (i + offset)
  let leftIndex : ℕ := ((i : ℤ) - offset - 1).toNat
  observed i -
    multiplier * (runningSums observed endN rightIndex -
      runningSums observed endN leftIndex - observed i)

/-! ### Region normalization (spectrum_preprocess2.cc, lines 166-193)

After the fill loop, `PreprocessSpectrum` sets
`intensity_cutoff = highest_intensity * 0.05` (five percent of the *global*
highest square-rooted intensity), then partitions bins `0 .. NUM_SPECTRUM_REGIONS
* region_size - 1` into `NUM_SPECTRUM_REGIONS` regions of
`region_size = largest_mz / NUM_SPECTRUM_REGIONS + 1` bins; per region it
zeroes every value `<= intensity_cutoff`, finds the region's maximum of the
zeroed values, and (when that maximum is nonzero) multiplies the nonzero
entries by `50.0 / maximum`.  `NUM_SPECTRUM_REGIONS` is a header constant not
in the sources at hand, so the region count is a parameter. -/

/-- Source: `region_size = largest_mz / NUM_SPECTRUM_REGIONS + 1` (integer division). -/
def regionSize (largestMz numRegions : ℕ) : ℕ := largestMz / numRegions + 1

/-- One bin after the zeroing pass: `if (peaks_[index] <= intensity_cutoff)
peaks_[index] = 0;`. -/
def zeroedPeaks (peaks : ℕ → ℚ) (cutoff : ℚ) (idx : ℕ) : ℚ :=
  if peaks idx ≤ cutoff then 0 else peaks idx

/-- The `highest_intensity` of region `r`: the running maximum (initialized to 0)
of the region's bins after the zeroing pass. -/
def regionMax (peaks : ℕ → ℚ) (cutoff : ℚ) (rs r : ℕ) : ℚ :=
  (List.range rs).foldl (fun h j => max h (zeroedPeaks peaks cutoff (r * rs + j))) 0

/-- Value of bin `idx` after the whole region loop.  Bin `idx` lies in region
`idx / region_size`; a region whose post-zeroing maximum is 0 is skipped
(`continue`), otherwise its nonzero entries are scaled by `50 / maximum`. -/
def normalizeRegions (peaks : ℕ → ℚ) (highest : ℚ) (largestMz numRegions idx : ℕ) : ℚ :=
  let cutoff := highest * (5 / 100)
  let rs := regionSize largestMz numRegions
  if idx < numRegions * rs then
    let z := zeroedPeaks peaks cutoff idx
    let m := regionMax peaks cutoff rs (idx / rs)
    if m = 0 then z
    else if z ≠ 0 then z * (50 / m) else z
  else peaks idx

/-- The raw (pre-zeroing) local maximum of a region, as the spec's wording
has it. -/
def specRegionRawMax (peaks : ℕ → ℚ) (rs r : ℕ) : ℚ :=
  (List.range rs).foldl (fun h j => max h (peaks (r * rs + j))) 0

/-- Region normalization as claim C3 words it: zero the intensities strictly
below five percent of the region's own local maximum, then rescale the region
so that its local maximum becomes 50.  Stated only to be compared against
`normalizeRegions`, the embedding of the source. -/
def specNormalizeRegions (peaks : ℕ → ℚ) (largestMz numRegions idx : ℕ) : ℚ :=
  let rs := regionSize largestMz numRegions
  if idx < numRegions * rs then
    let m := specRegionRawMax peaks rs (idx / rs)
    let z := if peaks idx < m * (5 / 100) then 0 else peaks idx
    if m = 0 then z else z * (50 / m)
  else peaks idx

/-- A spectrum with global maximum 100 in region 0 and peaks 3 and 2 in
region 1 (with `largest_mz = 3` and two regions of size 2). -/
def cexPeaks : ℕ → ℚ :=
  fun i => if i = 0 then 100 else if i = 2 then 3 else if i = 3 then 2 else 0

/-! ### MakeInteger and ComputeCache (spectrum_preprocess2.cc, lines 220-279)

`MakeInteger` turns the double array into fixed-point integers
(`Peak(PeakMain, i) = round_to_int(peaks_[i]*50000)`); `ComputeCache` fills
the per-bin derived peak types.  Cache cells of bins in
`[BackgroundBinEnd, CacheBinEnd)` are zeroed before the combined loop runs,
so the per-type values are modelled as functions that are zero outside the
written range.  `peaks` stands for the `peaks_` array after background
subtraction, `bgEnd` for `max_mz_.BackgroundBinEnd()`, `cacheEnd` for
`max_mz_.CacheBinEnd()`, `nh3`/`h2o` for `MassConstants::BIN_NH3/BIN_H2O`
(constants living outside the sources at hand). -/

/-- Source `round_to_int`: round half away from zero (C truncation of `x + 0.5`
for nonnegative `x`, of `x - 0.5` otherwise). -/
def roundToInt (x : ℚ) : ℤ := if 0 ≤ x then ⌊x + 1 / 2⌋ else ⌈x - 1 / 2⌉

/-- Cache slot `Peak(PeakMain, i)` after `MakeInteger`. -/
def peakMain (peaks : ℕ → ℚ) (bgEnd i : ℕ) : ℤ :=
  if i < bgEnd then roundToInt (peaks i * 50000) else 0

/-- Cache slot `Peak(LossPeak, i)` after `ComputeCache`: `y = x + x`. -/
def lossPeak (peaks : ℕ → ℚ) (bgEnd i : ℕ) : ℤ :=
  if i < bgEnd then
    peakMain peaks bgEnd i + peakMain peaks bgEnd i
  else 0

/-- Cache slot `Peak(FlankingPeak, i)` after `ComputeCache`: `z = y + y + x`. -/
def flankingPeak (peaks : ℕ → ℚ) (bgEnd i : ℕ) : ℤ :=
  if i < bgEnd then
    lossPeak peaks bgEnd i + lossPeak peaks bgEnd i + peakMain peaks bgEnd i
  else 0

/-- Cache slot `Peak(PrimaryPeak, i)` after `ComputeCache`: `z + z`. -/
def primaryPeak (peaks : ℕ → ℚ) (bgEnd i : ℕ) : ℤ :=
  if i < bgEnd then flankingPeak peaks bgEnd i + flankingPeak peaks bgEnd i
  else 0

/-- The `flanks` accumulator of the combined loop: the primary peak plus,
when flanking peaks are enabled (`FP_`), the flanking values of the two
neighbouring bins. -/
def combinedFlanks (peaks : ℕ → ℚ) (bgEnd cacheEnd : ℕ) (FP : Bool) (i : ℕ) : ℤ :=
  primaryPeak peaks bgEnd i +
    (if FP then
      (if 0 < i then flankingPeak peaks bgEnd (i - 1) else 0) +
        (if i < cacheEnd - 1 then flankingPeak peaks bgEnd (i + 1) else 0)
    else 0)

/-- Cache slot `Peak(PeakCombinedY1, i)`: `flanks` plus, when neutral-loss peaks are
enabled (`NL_`), the loss values at the NH3- and H2O-shifted bins. -/
def peakCombinedY1 (peaks : ℕ → ℚ) (bgEnd cacheEnd : ℕ) (FP NL : Bool)
    (nh3 h2o i : ℕ) : ℤ :=
  if i < cacheEnd then
    combinedFlanks peaks bgEnd cacheEnd FP i +
      (if NL then
        (if nh3 < i then lossPeak peaks bgEnd (i - nh3) else 0) +
          (if h2o < i then lossPeak peaks bgEnd (i - h2o) else 0)
      else 0)
  else 0

/-- Cache slot `Peak(PeakCombinedB1, i)`: the source sets `B1 = Y1`. -/
def peakCombinedB1 (peaks : ℕ → ℚ) (bgEnd cacheEnd : ℕ) (FP NL : Bool)
    (nh3 h2o i : ℕ) : ℤ :=
  peakCombinedY1 peaks bgEnd cacheEnd FP NL nh3 h2o i

/-- Cache slot `Peak(PeakCombinedY2, i)`: just `flanks`. -/
def peakCombinedY2 (peaks : ℕ → ℚ) (bgEnd cacheEnd : ℕ) (FP : Bool) (i : ℕ) : ℤ :=
  if i < cacheEnd then combinedFlanks peaks bgEnd cacheEnd FP i else 0

/-- Cache slot `Peak(PeakCombinedB2, i)`: the source sets `B2 = flanks` as well. -/
def peakCombinedB2 (peaks : ℕ → ℚ) (bgEnd cacheEnd : ℕ) (FP : Bool) (i : ℕ) : ℤ :=
  peakCombinedY2 peaks bgEnd cacheEnd FP i

/-! ### computeWindow (TideSearchApplication.cpp, lines 1010-1056)

`TideSearchApplication::computeWindow` builds one `[min,max]` pair per
negative isotope error plus the `[min_range,max_range]` envelope.
`unit_dalton = BIN_WIDTH` and `MASS_PROTON` are external constants, passed
as parameters. -/

/-- The `WINDOW_TYPE_T` selector values used by `computeWindow`. -/
inductive WindowType where
  | mass
  | mz
  | ppm

/-- The outputs of `computeWindow`: `out_min`, `out_max`, `min_range`,
`max_range`. -/
structure WindowOut where
  outMin : List ℚ
  outMax : List ℚ
  minRange : ℚ
  maxRange : ℚ

/-- The three window modes of `computeWindow` (`front()`/`back()` of the
isotope-error vector are modelled with default 0; the caller always passes a
nonempty, sorted vector). -/
def computeWindow (wt : WindowType) (neutralMass precursorMz precursorWindow
    massProton unitDalton : ℚ) (charge maxCharge : ℤ) (negIso : List ℤ) : WindowOut :=
  match wt with
  | .mass =>
    { outMin := negIso.map (fun ie => neutralMass + ie * unitDalton - precursorWindow)
      outMax := negIso.map (fun ie => neutralMass + ie * unitDalton + precursorWindow)
      minRange := neutralMass + (negIso.headD 0) * unitDalton - precursorWindow
      maxRange := neutralMass + (negIso.getLastD 0) * unitDalton + precursorWindow }
  | .mz =>
    let mzMinusProton := precursorMz - massProton
    { outMin := negIso.map
        (fun ie => (mzMinusProton - precursorWindow) * charge + ie * unitDalton)
      outMax := negIso.map
        (fun ie => (mzMinusProton + precursorWindow) * charge + ie * unitDalton)
      minRange := mzMinusProton * charge + (negIso.headD 0) * unitDalton -
        precursorWindow * maxCharge
      maxRange := mzMinusProton * charge + (negIso.getLastD 0) * unitDalton +
        precursorWindow * maxCharge }
  | .ppm =>
    let tinyPrecursor := precursorWindow * (1 / 1000000)
    { outMin := negIso.map (fun ie => (neutralMass + ie * unitDalton) * (1 - tinyPrecursor))
      outMax := negIso.map (fun ie => (neutralMass + ie * unitDalton) * (1 + tinyPrecursor))
      minRange := (neutralMass + (negIso.headD 0) * unitDalton) * (1 - tinyPrecursor)
      maxRange := (neutralMass + (negIso.getLastD 0) * unitDalton) * (1 + tinyPrecursor) }

/-! ### DotProd and collectScoresCompiled
(spectrum_preprocess2.cc, lines 282-291; TideSearchApplication.cpp,
lines 849-959)

`ObservedPeakSet::DotProd` is the reference sparse dot product: it sums the
cache values at each theoretical peak's code.  `collectScoresCompiled` runs
the machine code generated at peptide-load time (one program per candidate,
`compiler.h` — not among the sources at hand), which fills the results
buffer with one `(score, counter)` pair per candidate, the counter register
starting at the queue size and counting down. -/

/-- Source `DotProd`: `total += cache_[i->Code()]` over the theoretical peak list. -/
def dotProd (cache : ℕ → ℤ) (theoretical : List ℕ) : ℤ :=
  theoretical.foldl (fun total code => total + cache code) 0

/-- Modelled from the spec: the bodies of the runtime-generated scoring
programs (`compiler.h`, absent from the sources at hand) "directly emit
(score, peptide-counter) pairs for an entire queue of candidates in one
pass"; each pair's score is the sparse dot product of the cache with that
candidate's theoretical peaks and the counter register, initialized to the
queue size, decreases by one from one candidate to the next ("counter
encodes position from the back of the active queue"). -/
def collectScoresCompiled (cache : ℕ → ℤ) : List (List ℕ) → ℕ → List (ℤ × ℕ)
  | [], _ => []
  | p :: rest, counter =>
    (dotProd cache p, counter) :: collectScoresCompiled cache rest (counter - 1)

/-- The scoring pass over a whole queue: the counter register starts at the
active-queue size. -/
def scoreQueue (cache : ℕ → ℤ) (queue : List (List ℕ)) : List (ℤ × ℕ) :=
  collectScoresCompiled cache queue queue.length

/-! ### The exact-p-value / deisotoping dispatch
(TideSearchApplication.cpp, lines 506 and 564-571)

In the per-spectrum loop, `search` either runs the original XCorr path
(`!exact_pval_search`), whose preprocessing applies Morpheus-style
deisotoping exactly when the `deisotope` parameter is nonzero, or the
exact-p-value path, which first aborts with `CARP_FATAL` if `deisotope` is
nonzero. -/

/-- The two parameters the dispatch depends on: the `exact-p-value` flag and
the `deisotope` threshold. -/
structure SearchConfig where
  exactPValue : Bool
  deisotope : ℚ

/-- Which engine scores a spectrum-charge pair, and whether deisotoping was
applied during its preprocessing. -/
inductive ScoringMode where
  | xcorr (deisotopingApplied : Bool)
  | exactPVal
deriving DecidableEq

/-- The branch taken for one spectrum-charge pair: the XCorr path (with
deisotoping active iff `deisotope != 0.0`), or the exact-p-value path after
its fatal `deisotope != 0.0` check. -/
def dispatchScoring (cfg : SearchConfig) : Except String ScoringMode :=
  if cfg.exactPValue = false then
    .ok (.xcorr (decide (cfg.deisotope ≠ 0)))
  else if cfg.deisotope ≠ 0 then
    .error "Deisotoping is not yet implemented in conjunction with exact p-values."
  else
    .ok .exactPVal

/-! ### getNegativeIsotopeErrors (TideSearchApplication.cpp, lines 323-350)

The `isotope-error` parameter string is rejected when it starts with a comma
or contains a comma followed by the end of the string or another comma; the
comma-separated integers are then folded into a vector that starts as `{0}`,
rejecting any negative entry and any entry whose negation is already
present, appending the negation otherwise; the vector is finally sorted.
`std::string operator[]` on an empty string yields a NUL character, modelled
by `headD` with a non-comma default; `StringUtils::Split<int>` (outside the
sources at hand) splits on commas and reads each token as a decimal integer,
modelled by `splitOnComma`/`parseIntTok`; `std::sort` on integers is
insertion sort up to equality of results. -/

/-- Split on commas (the token list `StringUtils::Split` produces). -/
def splitOnComma : List Char → List (List Char)
  | [] => [[]]
  | c :: rest =>
    if c = ',' then [] :: splitOnComma rest
    else
      match splitOnComma rest with
      | [] => [[c]]
      | t :: ts => (c :: t) :: ts

/-- Decimal value of a digit string. -/
def digitsVal (l : List Char) : ℤ :=
  l.foldl (fun acc c => acc * 10 + ((c.toNat : ℤ) - ('0'.toNat : ℤ))) 0

/-- Decimal integer conversion of one token, with optional leading minus. -/
def parseIntTok : List Char → ℤ
  | '-' :: rest => - digitsVal rest
  | l => digitsVal l

/-- The formatting loop: fatal when any comma is followed by the end of the
string or by another comma. -/
def commaFormatBad : List Char → Bool
  | [] => false
  | [','] => true
  | ',' :: ',' :: _ => true
  | _ :: rest => commaFormatBad rest

/-- The accumulation loop over the parsed values, starting from `{0}`:
fatal on a negative value, fatal when the negation is already accumulated,
otherwise push the negation. -/
def negIsoLoop : List ℤ → List ℤ → Except String (List ℤ)
  | acc, [] => .ok acc
  | acc, v :: rest =>
    if v < 0 then .error "Found a negative isotope error."
    else if (-v) ∈ acc then .error "Found duplicate when parsing isotope_error parameter."
    else negIsoLoop (acc ++ [-v]) rest

/-- Ordered insertion, the building block of the sort. -/
def insertSorted (v : ℤ) : List ℤ → List ℤ
  | [] => [v]
  | w :: rest => if v ≤ w then v :: w :: rest else w :: insertSorted v rest

/-- Sorting of the result vector (`std::sort`; on integers any sort yields
the same list). -/
def sortInts : List ℤ → List ℤ
  | [] => []
  | v :: rest => insertSorted v (sortInts rest)

/-- The integers `StringUtils::Split<int>` reads from the parameter
string. -/
def parsedInts (s : String) : List ℤ := (splitOnComma s.data).map parseIntTok

/-- Source `TideSearchApplication::getNegativeIsotopeErrors`, with
`CARP_FATAL` as the error branch.  An empty parameter yields `{0}`; C++
`operator[]` on an empty `std::string` reads a NUL character, modelled by
`headD` with a non-comma default. -/
def getNegativeIsotopeErrors (s : String) : Except String (List ℤ) :=
  if s.data.headD ' ' = ',' then
    .error "Error in isotope_error parameter formatting"
  else if commaFormatBad s.data then
    .error "Error in isotope_error parameter formatting"
  else if s.data.isEmpty then .ok [0]
  else (negIsoLoop [0] (parsedInts s)).map sortInts

/-! ### The peak fill loop of PreprocessSpectrum
(spectrum_preprocess2.cc, lines 59-218)

`PreprocessSpectrum` computes `experimental_mass_cut_off`, then either (skip
mode) buckets the raw per-bin intensity maxima of the peaks below the
cutoff, or (normal mode) runs the fill loop: peaks at or above the cutoff
bump `num_range_skipped`; peaks within the precursor-removal tolerance bump
`num_precursors_skipped`; peaks dominated by a lower-m/z isotope partner
bump `num_isotopes_skipped`; the rest are retained, square-rooted, and
bucketed by maximum per bin while `largest_mz` and `highest_intensity` are
tracked.  In both modes `SubtractBackground`, `MakeInteger` and
`ComputeCache` then run on the resulting array.  The spectrum accessor
`MaxPeakInRange`, the bin mapping `MassConstants::mass2bin`, `sqrt` and
`ISOTOPE_SPACING` live outside the sources at hand and are parameters.
The source iterates peaks from the last index down; the embedding folds
over the peak list in that iteration order. -/

/-- The mutable state of the fill loop: the `peaks_` array, the four skip
counters, `largest_mz` and `highest_intensity`. -/
structure FillState where
  peaks : ℕ → ℚ
  numRangeSkipped : ℕ
  numPrecursorsSkipped : ℕ
  numIsotopesSkipped : ℕ
  numRetained : ℕ
  largestMz : ℕ
  highestIntensity : ℚ

/-- State on entry: `peaks_` zeroed by `memset`, counters and trackers 0. -/
def initFillState : FillState :=
  { peaks := fun _ => 0, numRangeSkipped := 0, numPrecursorsSkipped := 0,
    numIsotopesSkipped := 0, numRetained := 0, largestMz := 0, highestIntensity := 0 }

/-- Parameters read before the fill loop: the spectrum's precursor m/z and
assumed charge, the `remove-precursor-peak`/`remove-precursor-tolerance`/
`deisotope` parameters, the spectrum's max charge, together with the externals
`MASS_PROTON`, `ISOTOPE_SPACING`, `Spectrum::MaxPeakInRange`,
`MassConstants::mass2bin` and `sqrt`, which live outside the sources at
hand. -/
structure FillParams where
  precursorMz : ℚ
  charge : ℤ
  massProton : ℚ
  removePrecursor : Bool
  precursorTolerance : ℚ
  deisotopeThreshold : ℚ
  maxCharge : ℕ
  isotopeSpacing : ℚ
  maxPeakInRange : ℚ → ℚ → ℚ
  mass2bin : ℚ → ℕ
  sqrtFn : ℚ → ℚ

/-- Source: `experimental_mass_cut_off = (precursor_mz - MASS_PROTON) * charge
+ MASS_PROTON + 50`. -/
def experimentalMassCutOff (precursorMz massProton : ℚ) (charge : ℤ) : ℚ :=
  (precursorMz - massProton) * charge + massProton + 50

/-- The cutoff computed by `PreprocessSpectrum` for the given parameters. -/
def cutOff (p : FillParams) : ℚ :=
  experimentalMassCutOff p.precursorMz p.massProton p.charge

/-- Morpheus-style deisotoping test: some fragment charge in
`1 .. max_charge - 1` has a higher-intensity peak within the ppm tolerance
of the expected lower-m/z isotope position (the loop with `break`). -/
def deisotopeCandidateFound (p : FillParams) (loc inten : ℚ) : Bool :=
  (List.range (p.maxCharge - 1)).any fun k =>
    let fragCharge : ℚ := ((k + 1 : ℕ) : ℚ)
    let isotopicPeak := loc - p.isotopeSpacing / fragCharge
    let ppmDifference := loc * p.deisotopeThreshold / 1000000
    decide (inten < p.maxPeakInRange (isotopicPeak - ppmDifference)
      (isotopicPeak + ppmDifference))

/-- The retained-peak tail of the loop body: bump `num_retained`, update
`largest_mz` (raw intensity must be positive), take `sqrt`, update
`highest_intensity`, and keep the per-bin maximum.  The source performs
these updates sequentially, but each condition reads only fields the earlier
updates leave untouched, so the simultaneous record update is the same
function. -/
def retainStep (p : FillParams) (st : FillState) (pk : ℚ × ℚ) : FillState :=
  let mz := p.mass2bin pk.1
  let s := p.sqrtFn pk.2
  { st with
    numRetained := st.numRetained + 1
    largestMz := if st.largestMz < mz ∧ 0 < pk.2 then mz else st.largestMz
    highestIntensity := if st.highestIntensity < s then s else st.highestIntensity
    peaks := if st.peaks mz < s then (fun n => if n = mz then s else st.peaks n)
      else st.peaks }

/-- One iteration of the fill loop over a peak `(m/z, intensity)`: the
range cutoff, the optional precursor removal, the optional deisotoping, and
the retained-peak updates, in source order. -/
def fillStep (p : FillParams) (st : FillState) (pk : ℚ × ℚ) : FillState :=
  if cutOff p ≤ pk.1 then
    { st with numRangeSkipped := st.numRangeSkipped + 1 }
  else if p.removePrecursor = true ∧ |pk.1 - p.precursorMz| ≤ p.precursorTolerance then
    { st with numPrecursorsSkipped := st.numPrecursorsSkipped + 1 }
  else if p.deisotopeThreshold ≠ 0 ∧ deisotopeCandidateFound p pk.1 pk.2 = true then
    { st with numIsotopesSkipped := st.numIsotopesSkipped + 1 }
  else retainStep p st pk

/-- The whole fill loop, folded over the peaks in the source's iteration
order (the C code walks the spectrum from its last index down). -/
def fillLoop (p : FillParams) (l : List (ℚ × ℚ)) (st : FillState) : FillState :=
  l.foldl (fillStep p) st

/-- One iteration of the `skip-preprocessing` branch: drop peaks at or above
the cutoff (without touching any counter) and keep the raw per-bin
maximum. -/
def skipStep (cutoff : ℚ) (mass2bin : ℚ → ℕ) (st : FillState) (pk : ℚ × ℚ) : FillState :=
  if cutoff ≤ pk.1 then st
  else if st.peaks (mass2bin pk.1) < pk.2 then
    { st with peaks := fun n => if n = mass2bin pk.1 then pk.2 else st.peaks n }
  else st

/-- The whole `skip-preprocessing` bucketing loop. -/
def skipFill (cutoff : ℚ) (mass2bin : ℚ → ℕ) (l : List (ℚ × ℚ)) (st : FillState) : FillState :=
  l.foldl (skipStep cutoff mass2bin) st

/-- Two peaks of intensities 1 and 4 landing in bins 0 and 1. -/
def cexSkipPeakList : List (ℚ × ℚ) := [(0, 1), (3/2, 4)]

/-- A concrete two-bin stand-in for `MassConstants::mass2bin`. -/
def cexMass2bin : ℚ → ℕ := fun q => if q < 1 then 0 else 1

/-! ### calcScoreCount — the exact p-value dynamic program
(TideSearchApplication.cpp, lines 1207-1338)

`calcScoreCount` fills `dynProgArray` (a zero-initialized `nRow` x `nCol`
double matrix) with counts of theoretical peptides, then turns the final
column into a p-value table: copy the column into `pValueScoreObs`, sum it
into `totalCount`, replace it by its cumulative-from-the-top sums, subtract
half of the original entry of each row (half-bin edge correction) and
normalize by `exp(log count - log totalCount)`.  The matrix is modelled as
a total function `ℤ → ℤ → ℚ` defaulting to 0 (matching the
zero-initialization; the C buffers `bottomRowBuffer`/`topRowBuffer`/
`colBuffer` exist precisely so that all accesses stay in bounds); the three
loops are folds updating one cell at a time in the source's iteration
order.  `colStart = MassConstants::mass2bin(mono_h)` and
`colLast = mass2bin(bin2mass(pepMassInt) - mono_oh)` come from
`MassConstants` (outside the sources at hand) and are input fields.  The
log-space normalization is modelled as exact division: for positive reals
`exp(log x - log y) = x / y`, and a zero count maps to p-value 0 either
way. -/

/-- The inputs of `calcScoreCount` (arrays as functions). -/
structure ScoreCountInput where
  evidenceObs : ℤ → ℤ
  pepMassInt : ℤ
  maxEvidence : ℤ
  minEvidence : ℤ
  maxScore : ℤ
  minScore : ℤ
  nAA : ℕ
  aaFreqN : ℕ → ℚ
  aaFreqI : ℕ → ℚ
  aaFreqC : ℕ → ℚ
  aaMass : ℕ → ℤ
  colStart : ℤ
  colLast : ℤ

/-- Source: `bottomRowBuffer = maxEvidence + 1`. -/
def bottomRowBuffer (inp : ScoreCountInput) : ℤ := inp.maxEvidence + 1

/-- Source: `topRowBuffer = -minEvidence`. -/
def topRowBuffer (inp : ScoreCountInput) : ℤ := -inp.minEvidence

/-- Source: `maxDeltaMass = aaMass[nAA - 1]` (the sorted residue-mass array ends at
its maximum). -/
def maxDeltaMass (inp : ScoreCountInput) : ℤ := inp.aaMass (inp.nAA - 1)

/-- The returned row offset: `scoreOffsetObs = bottomRowBuffer - minScore`. -/
def scoreOffsetObs (inp : ScoreCountInput) : ℤ := bottomRowBuffer inp - inp.minScore

/-- Source: `nRow = bottomRowBuffer - minScore + 1 + maxScore + topRowBuffer`. -/
def nRow (inp : ScoreCountInput) : ℤ :=
  bottomRowBuffer inp - inp.minScore + 1 + inp.maxScore + topRowBuffer inp

/-- Source: `rowFirst = bottomRowBuffer`. -/
def rowFirst (inp : ScoreCountInput) : ℤ := bottomRowBuffer inp

/-- Source: `rowLast = rowFirst - minScore + maxScore`. -/
def rowLast (inp : ScoreCountInput) : ℤ := rowFirst inp - inp.minScore + inp.maxScore

/-- Source: `colFirst = colStart + mass2bin(mono_h)`; both summands are the same
external constant. -/
def colFirst (inp : ScoreCountInput) : ℤ := inp.colStart + inp.colStart

/-- Source: `initCountRow = bottomRowBuffer - minScore`. -/
def initCountRow (inp : ScoreCountInput) : ℤ := bottomRowBuffer inp - inp.minScore

/-- Source: `initCountCol = maxDeltaMass + colStart`. -/
def initCountCol (inp : ScoreCountInput) : ℤ := maxDeltaMass inp + inp.colStart

/-- The DP matrix as a total function (0 outside the written cells). -/
def DPState : Type := ℤ → ℤ → ℚ

/-- Assignment `dynProgArray[r][c] = v`. -/
def updCell (st : DPState) (r c : ℤ) (v : ℚ) : DPState :=
  fun r' c' => if r' = r ∧ c' = c then v else st r' c'

/-- One iteration of the N-terminal loop: add
`dynProgArray[initCountRow][initCountCol] * aaFreqN[de]` at the shifted
cell, guarded by `col <= maxDeltaMass + colLast`. -/
def ntermStep (inp : ScoreCountInput) (st : DPState) (de : ℕ) : DPState :=
  let ma := inp.aaMass de
  let row := initCountRow inp + inp.evidenceObs (ma + inp.colStart)
  let col := initCountCol inp + ma
  if col ≤ maxDeltaMass inp + inp.colLast then
    updCell st row col
      (st row col + st (initCountRow inp) (initCountCol inp) * inp.aaFreqN de)
  else st

/-- Matrix after the seed count 1 at `(initCountRow, initCountCol)`, the
N-terminal loop, and the reset of the seed cell to 0. -/
def afterNterm (inp : ScoreCountInput) : DPState :=
  let st0 := updCell (fun _ _ => 0) (initCountRow inp) (initCountCol inp) 1
  let st1 := (List.range inp.nAA).foldl (ntermStep inp) st0
  updCell st1 (initCountRow inp) (initCountCol inp) 0

/-- The row iteration `for (row = rowFirst; row <= rowLast; row++)`. -/
def rowList (inp : ScoreCountInput) : List ℤ :=
  (List.range ((rowLast inp - rowFirst inp + 1).toNat)).map (fun k => rowFirst inp + k)

/-- The column iteration `for (ma = colFirst; ma < colLast; ma++)`. -/
def maList (inp : ScoreCountInput) : List ℤ :=
  (List.range ((inp.colLast - colFirst inp).toNat)).map (fun k => colFirst inp + k)

/-- The `sumScore` of the internal-residue update: start from the cell itself
and add `dynProgArray[row - evidence][col - aaMass[de]] * aaFreqI[de]`. -/
def innerCellI (inp : ScoreCountInput) (st : DPState) (evidence col row : ℤ) : ℚ :=
  (List.range inp.nAA).foldl
    (fun s de => s + st (row - evidence) (col - inp.aaMass de) * inp.aaFreqI de)
    (st row col)

/-- One row update of the internal-residue loop. -/
def mainRowStep (inp : ScoreCountInput) (evidence col : ℤ) (st : DPState) (row : ℤ) :
    DPState :=
  updCell st row col (innerCellI inp st evidence col row)

/-- One column `ma` of the internal-residue loop (`col = maxDeltaMass + ma`,
`evidence = evidenceObs[ma]`). -/
def mainColStep (inp : ScoreCountInput) (st : DPState) (ma : ℤ) : DPState :=
  (rowList inp).foldl (mainRowStep inp (inp.evidenceObs ma) (maxDeltaMass inp + ma)) st

/-- Matrix after the internal-residue double loop. -/
def afterMain (inp : ScoreCountInput) : DPState :=
  (maList inp).foldl (mainColStep inp) (afterNterm inp)

/-- The `sumScore` of the C-terminal update: `no evidence is added for the last
residue`, and the sum starts from 0 (the cell is overwritten). -/
def ctermCell (inp : ScoreCountInput) (st : DPState) (col row : ℤ) : ℚ :=
  (List.range inp.nAA).foldl
    (fun s de => s + st row (col - inp.aaMass de) * inp.aaFreqC de) 0

/-- One row update of the C-terminal loop. -/
def ctermRowStep (inp : ScoreCountInput) (col : ℤ) (st : DPState) (row : ℤ) : DPState :=
  updCell st row col (ctermCell inp st col row)

/-- Matrix after the C-terminal loop at `ma = colLast`. -/
def finalDP (inp : ScoreCountInput) : DPState :=
  (rowList inp).foldl (ctermRowStep inp (maxDeltaMass inp + inp.colLast)) (afterMain inp)

/-- Row `r` of the final column `colScoreCount = maxDeltaMass + colLast` —
the raw count copied into `pValueScoreObs[row]`. -/
def scoreCountN (inp : ScoreCountInput) (r : ℕ) : ℚ :=
  finalDP inp (r : ℤ) (maxDeltaMass inp + inp.colLast)

/-- Sum of `f` over rows `row .. n-1`: the cumulative-from-the-top value the
in-place suffix loop leaves at `pValueScoreObs[row]`. -/
def suffixFrom (f : ℕ → ℚ) (row n : ℕ) : ℚ :=
  ((List.range (n - row)).map (fun k => row + k)).foldl (fun t r => t + f r) 0

/-- Source `totalCount`: the sum of the final column over all `nRow` rows. -/
def totalCount (inp : ScoreCountInput) : ℚ :=
  suffixFrom (scoreCountN inp) 0 (nRow inp).toNat

/-- The final p-value table: cumulative-from-the-top counts, minus the
half-bin edge correction `scoreCountBinAdjust[row] = count[row] / 2`,
normalized by `totalCount` (`exp(log x - log totalCount)` in the source,
exact division here). -/
def pValueScoreObs (inp : ScoreCountInput) (row : ℕ) : ℚ :=
  (suffixFrom (scoreCountN inp) row (nRow inp).toNat - scoreCountN inp row / 2) /
    totalCount inp

/-- All matrix entries nonnegative. -/
def DPNonneg (st : DPState) : Prop := ∀ r c, 0 ≤ st r c

/-- A small concrete instance: one residue of mass 1, all frequencies 1,
zero evidence, `colStart = 1`, `colLast = 4`; its total count is 1 and its
p-value table is `1, 1/2, 0`. -/
def pValueWitnessInput : ScoreCountInput :=
  { evidenceObs := fun _ => 0, pepMassInt := 4, maxEvidence := 0, minEvidence := 0,
    maxScore := 1, minScore := 0, nAA := 1,
    aaFreqN := fun _ => 1, aaFreqI := fun _ => 1, aaFreqC := fun _ => 1,
    aaMass := fun _ => 1, colStart := 1, colLast := 4 }

/-! ### Theorems -/

theorem sumTo_const (observed : ℕ → ℚ) (endN : ℕ) (c : ℚ)
    (h : ∀ j < endN, observed j = c) :
    ∀ k, k ≤ endN → sumTo observed k = c * k := by
  intro k
  induction k with
  | zero => intro _; simp [sumTo]
  | succ n ih =>
    intro hk
    have hn : n < endN := Nat.lt_of_succ_le hk
    rw [sumTo, ih (Nat.le_of_lt hn), h n hn]
    push_cast
    ring

/-- Claim C2, counterexample: a one-bin spectrum holding intensity 1 comes out
of `SubtractBackground` (half-width 75, the legacy `MAX_XCORR_OFFSET`) with
value `151/150`, which is not approximately zero even at the generous
tolerance `1/10` relative to the input intensity `1`. -/
theorem subtractBackground_allEqual_not_zero_at_edge :
    subtractBackground (fun _ => 1) 1 75 0 = 151 / 150 ∧
      ¬ |subtractBackground (fun _ => 1) 1 75 0| ≤ 1 / 10 := by
  have hval : subtractBackground (fun _ => 1) 1 75 0 = 151 / 150 := by
    norm_num [subtractBackground, runningSums, sumTo]
  refine ⟨hval, ?_⟩
  rw [hval, abs_of_pos (by norm_num)]
  norm_num

/-- Claim C2, amended: on an all-equal spectrum the subtracted value is exactly
zero at every interior bin, i.e. every `i` with `offset + 1 ≤ i` and
`i + offset < end`; bins nearer an edge keep a nonzero remainder because the
denominator of the window average stays `2 * offset` even where fewer bins
were summed. -/
theorem subtractBackground_allEqual_interior_zero (observed : ℕ → ℚ) (c : ℚ)
    (endN offset i : ℕ) (hoff : 0 < offset)
    (hconst : ∀ j < endN, observed j = c)
    (hleft : offset + 1 ≤ i) (hright : i + offset < endN) :
    subtractBackground observed endN offset i = 0 := by
  have hi : i < endN := by omega
  have hsum := sumTo_const observed endN c hconst
  have hLnat : ((i : ℤ) - offset - 1).toNat = i - offset - 1 := by omega
  have hrightIdx : min endN (i + offset) = i + offset := by omega
  have hr : runningSums observed endN (i + offset) = c * (i + offset + 1) := by
    rw [runningSums, if_pos hright, hsum (i + offset + 1) (by omega)]
    push_cast; ring
  have hl : runningSums observed endN (i - offset - 1) = c * (i - offset) := by
    rw [runningSums, if_pos (by omega), hsum (i - offset - 1 + 1) (by omega)]
    have : (((i - offset - 1 + 1 : ℕ)) : ℚ) = (i : ℚ) - offset := by
      have h1 : i - offset - 1 + 1 = i - offset := by omega
      rw [h1]
      push_cast [Nat.cast_sub (by omega : offset ≤ i)]
      ring
    rw [this]
  simp only [subtractBackground, hrightIdx, hLnat, hr, hl, hconst i hi]
  have hoffQ : (offset : ℚ) ≠ 0 := Nat.cast_ne_zero.mpr (by omega)
  field_simp
  ring

/-- Witness for the amended claim C2 at `offset = 2`, `end = 7`, `i = 3`,
constant intensity `1`. -/
theorem subtractBackground_allEqual_interior_zero_witness :
    subtractBackground (fun _ => 1) 7 2 3 = 0 :=
  subtractBackground_allEqual_interior_zero (fun _ => 1) 1 7 2 3 (by decide)
    (fun _ _ => rfl) (by decide) (by decide)

theorem foldl_max_le (f : ℕ → ℚ) (b : ℚ) :
    ∀ (l : List ℕ) (i : ℚ), i ≤ b → (∀ x ∈ l, f x ≤ b) →
      l.foldl (fun a x => max a (f x)) i ≤ b := by
  intro l
  induction l with
  | nil => intro i hi _; simpa using hi
  | cons hd tl ih =>
    intro i hi hf
    simp only [List.foldl_cons]
    exact ih (max i (f hd)) (max_le hi (hf hd (List.mem_cons_self hd tl)))
      (fun x hx => hf x (List.mem_cons_of_mem hd hx))

theorem le_foldl_max_init (f : ℕ → ℚ) :
    ∀ (l : List ℕ) (i : ℚ), i ≤ l.foldl (fun a x => max a (f x)) i := by
  intro l
  induction l with
  | nil => intro i; simp
  | cons hd tl ih =>
    intro i
    simp only [List.foldl_cons]
    exact le_trans (le_max_left i (f hd)) (ih (max i (f hd)))

theorem le_foldl_max_mem (f : ℕ → ℚ) :
    ∀ (l : List ℕ) (i : ℚ) (x : ℕ), x ∈ l → f x ≤ l.foldl (fun a x => max a (f x)) i := by
  intro l
  induction l with
  | nil => intro i x hx; cases hx
  | cons hd tl ih =>
    intro i x hx
    simp only [List.foldl_cons]
    rcases List.mem_cons.mp hx with h | h
    · subst h
      exact le_trans (le_max_right i (f x)) (le_foldl_max_init f tl (max i (f x)))
    · exact ih (max i (f hd)) x h

theorem foldl_max_eq_init_or_mem (f : ℕ → ℚ) :
    ∀ (l : List ℕ) (i : ℚ),
      l.foldl (fun a x => max a (f x)) i = i ∨
        ∃ x ∈ l, l.foldl (fun a x => max a (f x)) i = f x := by
  intro l
  induction l with
  | nil => intro i; left; rfl
  | cons hd tl ih =>
    intro i
    simp only [List.foldl_cons]
    rcases ih (max i (f hd)) with h | ⟨x, hx, h⟩
    · rcases max_cases i (f hd) with ⟨he, _⟩ | ⟨he, _⟩
      · left; rw [h, he]
      · right; exact ⟨hd, List.mem_cons_self hd tl, by rw [h, he]⟩
    · right; exact ⟨x, List.mem_cons_of_mem hd hx, h⟩

/-- Claim C3, counterexample: the code zeroes against five percent of the
*global* maximum (here `100 * 5% = 5`), so the bin holding 2 in the region
whose own local maximum is 3 is zeroed; the claim's region-local rule would
keep it (2 is not below `3 * 5% = 0.15`) and rescale it to `100/3`. -/
theorem normalizeRegions_global_vs_regional_cutoff :
    normalizeRegions cexPeaks 100 3 2 3 = 0 ∧
      specNormalizeRegions cexPeaks 3 2 3 = 100 / 3 ∧ (0 : ℚ) ≠ 100 / 3 := by
  refine ⟨?_, ?_, by norm_num⟩
  · norm_num [normalizeRegions, regionMax, zeroedPeaks, regionSize, cexPeaks,
      List.range_succ, max_def]
  · norm_num [specNormalizeRegions, specRegionRawMax, regionSize, cexPeaks,
      List.range_succ, max_def]

/-- Claim C3, amended: bins are partitioned into a fixed number of contiguous
regions of `largest_mz / numRegions + 1` bins; every intensity at or below
five percent of the *global* highest intensity is zeroed; and each region
whose post-zeroing maximum is nonzero is rescaled so that its local maximum
becomes exactly 50. -/
theorem normalizeRegions_amended (peaks : ℕ → ℚ) (highest : ℚ)
    (largestMz numRegions r : ℕ) (hr : r < numRegions)
    (hm : regionMax peaks (highest * (5 / 100)) (regionSize largestMz numRegions) r ≠ 0) :
    ((List.range (regionSize largestMz numRegions)).foldl
        (fun a j => max a (normalizeRegions peaks highest largestMz numRegions
          (r * regionSize largestMz numRegions + j))) 0) = 50 ∧
      ∀ idx < numRegions * regionSize largestMz numRegions,
        peaks idx ≤ highest * (5 / 100) →
          normalizeRegions peaks highest largestMz numRegions idx = 0 := by
  set cutoff : ℚ := highest * (5 / 100) with hcutoff
  set rs : ℕ := regionSize largestMz numRegions with hrsdef
  set M : ℚ := regionMax peaks cutoff rs r with hMdef
  have hrs1 : 0 < rs := Nat.succ_pos _
  have hM0 : 0 < M :=
    lt_of_le_of_ne (le_foldl_max_init _ (List.range rs) 0) (Ne.symm hm)
  have hidx : ∀ j < rs, r * rs + j < numRegions * rs := by
    intro j hj
    calc r * rs + j < r * rs + rs := by omega
    _ = (r + 1) * rs := by ring
    _ ≤ numRegions * rs := Nat.mul_le_mul_right rs hr
  have hdiv : ∀ j < rs, (r * rs + j) / rs = r := by
    intro j hj
    rw [Nat.mul_comm r rs, Nat.mul_add_div hrs1, Nat.div_eq_of_lt hj]
    omega
  have hval : ∀ j < rs, normalizeRegions peaks highest largestMz numRegions (r * rs + j) =
      if zeroedPeaks peaks cutoff (r * rs + j) = 0 then 0
      else zeroedPeaks peaks cutoff (r * rs + j) * (50 / M) := by
    intro j hj
    simp only [normalizeRegions, ← hcutoff, ← hrsdef, hdiv j hj, ← hMdef,
      if_pos (hidx j hj), if_neg hm]
    by_cases hz : zeroedPeaks peaks cutoff (r * rs + j) = 0
    · simp [hz]
    · simp [hz]
  have hzle : ∀ j < rs, zeroedPeaks peaks cutoff (r * rs + j) ≤ M := by
    intro j hj
    exact le_foldl_max_mem _ (List.range rs) 0 j (List.mem_range.mpr hj)
  constructor
  · apply le_antisymm
    · apply foldl_max_le _ _ _ _ (by norm_num)
      intro j hj
      rw [hval j (List.mem_range.mp hj)]
      by_cases hz : zeroedPeaks peaks cutoff (r * rs + j) = 0
      · simp [hz]
      · rw [if_neg hz]
        calc zeroedPeaks peaks cutoff (r * rs + j) * (50 / M) ≤ M * (50 / M) :=
            mul_le_mul_of_nonneg_right (hzle j (List.mem_range.mp hj))
              (le_of_lt (div_pos (by norm_num) hM0))
        _ = 50 := by field_simp
    · rcases foldl_max_eq_init_or_mem
          (fun j => zeroedPeaks peaks cutoff (r * rs + j)) (List.range rs) 0 with h | ⟨j0, hj0, h⟩
      · exfalso
        apply hm
        rw [hMdef, regionMax]
        exact h
      · have hj0' : j0 < rs := List.mem_range.mp hj0
        have hF : normalizeRegions peaks highest largestMz numRegions (r * rs + j0) = 50 := by
          rw [hval j0 hj0']
          have hz : zeroedPeaks peaks cutoff (r * rs + j0) = M := by
            rw [hMdef, regionMax, ← h]
          rw [if_neg (by rw [hz]; exact ne_of_gt hM0), hz]
          field_simp
        calc (50 : ℚ) = normalizeRegions peaks highest largestMz numRegions (r * rs + j0) :=
            hF.symm
        _ ≤ _ := le_foldl_max_mem _ (List.range rs) 0 j0 hj0
  · intro idx hidx2 hcut
    have hz : zeroedPeaks peaks cutoff idx = 0 := by
      rw [zeroedPeaks, if_pos hcut]
    simp only [normalizeRegions, ← hcutoff, ← hrsdef, if_pos hidx2]
    split_ifs with h1 h2
    · exact hz
    · exact absurd hz h2
    · exact hz

/-- Witness for the amended claim C3, on `cexPeaks` with two regions of size
2 and global maximum 100: region 0 holds the bin with value 100, which
survives the 5%-of-100 cutoff, so the region's normalized maximum is 50. -/
theorem normalizeRegions_amended_witness :
    ((List.range (regionSize 3 2)).foldl
        (fun a j => max a (normalizeRegions cexPeaks 100 3 2
          (0 * regionSize 3 2 + j))) 0) = 50 ∧
      ∀ idx < 2 * regionSize 3 2,
        cexPeaks idx ≤ 100 * (5 / 100) → normalizeRegions cexPeaks 100 3 2 idx = 0 :=
  normalizeRegions_amended cexPeaks 100 3 2 0 (by norm_num)
    (by norm_num [regionMax, zeroedPeaks, regionSize, cexPeaks, List.range_succ, max_def])

/-- Claim C10: after `ComputeCache` every bin satisfies
`LossPeak = 2 * PeakMain`, `FlankingPeak = 5 * PeakMain`,
`PrimaryPeak = 10 * PeakMain`, and the combined B-ion series coincides with
the combined Y-ion series (`B1 = Y1`, `B2 = Y2`). -/
theorem computeCache_fixed_multiples (peaks : ℕ → ℚ) (bgEnd cacheEnd nh3 h2o i : ℕ)
    (FP NL : Bool) :
    lossPeak peaks bgEnd i = 2 * peakMain peaks bgEnd i ∧
      flankingPeak peaks bgEnd i = 5 * peakMain peaks bgEnd i ∧
      primaryPeak peaks bgEnd i = 10 * peakMain peaks bgEnd i ∧
      peakCombinedB1 peaks bgEnd cacheEnd FP NL nh3 h2o i =
        peakCombinedY1 peaks bgEnd cacheEnd FP NL nh3 h2o i ∧
      peakCombinedB2 peaks bgEnd cacheEnd FP i =
        peakCombinedY2 peaks bgEnd cacheEnd FP i := by
  have hmain : ¬ i < bgEnd → peakMain peaks bgEnd i = 0 := by
    intro h; rw [peakMain, if_neg h]
  refine ⟨?_, ?_, ?_, rfl, rfl⟩
  · rw [lossPeak]
    split_ifs with h
    · ring
    · rw [hmain h]; ring
  · rw [flankingPeak, lossPeak]
    split_ifs with h
    · ring
    · rw [hmain h]; ring
  · rw [primaryPeak, flankingPeak, lossPeak]
    split_ifs with h
    · ring
    · rw [hmain h]; ring

/-- Claim C9: in `WINDOW_MASS` mode with isotope-error list `{0}`, the window
is the single pair `min = m - w`, `max = m + w` and the envelope coincides
with it. -/
theorem computeWindow_mass_roundtrip (m mzPrec w massProton u : ℚ)
    (charge maxCharge : ℤ) :
    (computeWindow .mass m mzPrec w massProton u charge maxCharge [0]).outMin = [m - w] ∧
      (computeWindow .mass m mzPrec w massProton u charge maxCharge [0]).outMax = [m + w] ∧
      (computeWindow .mass m mzPrec w massProton u charge maxCharge [0]).minRange = m - w ∧
      (computeWindow .mass m mzPrec w massProton u charge maxCharge [0]).maxRange = m + w := by
  refine ⟨?_, ?_, ?_, ?_⟩ <;>
    simp [computeWindow]

theorem collectScoresCompiled_getD (cache : ℕ → ℤ) :
    ∀ (queue : List (List ℕ)) (counter k : ℕ), k < queue.length →
      (collectScoresCompiled cache queue counter).getD k (0, 0) =
        (dotProd cache (queue.getD k []), counter - k) := by
  intro queue
  induction queue with
  | nil => intro counter k hk; cases hk
  | cons p rest ih =>
    intro counter k hk
    cases k with
    | zero => rfl
    | succ k =>
      have hk' : k < rest.length := Nat.lt_of_succ_lt_succ hk
      show (collectScoresCompiled cache rest (counter - 1)).getD k (0, 0) = _
      rw [ih (counter - 1) k hk']
      have : counter - 1 - k = counter - (k + 1) := by omega
      rw [this]
      rfl

/-- Claim C5: each entry of the batch scorer's output pairs the reference
sparse dot product (`DotProd`) of the corresponding candidate with a counter
that encodes the candidate's position from the back of the queue. -/
theorem scoreQueue_refines_dotProd (cache : ℕ → ℤ) (queue : List (List ℕ))
    (k : ℕ) (hk : k < queue.length) :
    (scoreQueue cache queue).getD k (0, 0) =
      (dotProd cache (queue.getD k []), queue.length - k) :=
  collectScoresCompiled_getD cache queue queue.length k hk

/-- Witness for claim C5 on a two-candidate queue. -/
theorem scoreQueue_refines_dotProd_witness :
    (scoreQueue (fun c => (c : ℤ)) [[1, 2], [3]]).getD 0 (0, 0) =
      (dotProd (fun c => (c : ℤ)) (([[1, 2], [3]] : List (List ℕ)).getD 0 []),
        ([[1, 2], [3]] : List (List ℕ)).length - 0) :=
  scoreQueue_refines_dotProd (fun c => (c : ℤ)) [[1, 2], [3]] 0 (by decide)

/-- Claim C7: a nonzero deisotoping threshold together with exact-p-value
mode is a fatal error, and no successfully dispatched spectrum is ever
scored with the exact-p-value engine while deisotoping is configured. -/
theorem dispatch_deisotope_exact_fatal (cfg : SearchConfig)
    (hd : cfg.deisotope ≠ 0) :
    (cfg.exactPValue = true →
      dispatchScoring cfg =
        .error "Deisotoping is not yet implemented in conjunction with exact p-values.") ∧
      ∀ m, dispatchScoring cfg = .ok m → m ≠ .exactPVal := by
  constructor
  · intro he
    rw [dispatchScoring, if_neg (by rw [he]; simp), if_pos hd]
  · intro m hm
    rw [dispatchScoring] at hm
    by_cases he : cfg.exactPValue = false
    · rw [if_pos he] at hm
      cases hm
      intro h
      cases h
    · rw [if_neg he, if_pos hd] at hm
      cases hm

/-- Witness for claim C7 at `exact-p-value = true`, `deisotope = 10`. -/
theorem dispatch_deisotope_exact_fatal_witness :
    ((⟨true, 10⟩ : SearchConfig).exactPValue = true →
      dispatchScoring ⟨true, 10⟩ =
        .error "Deisotoping is not yet implemented in conjunction with exact p-values.") ∧
      ∀ m, dispatchScoring ⟨true, 10⟩ = .ok m → m ≠ .exactPVal :=
  dispatch_deisotope_exact_fatal ⟨true, 10⟩ (by norm_num)

theorem negIsoLoop_neg_err : ∀ (L acc : List ℤ), (∃ v ∈ L, v < 0) →
    (negIsoLoop acc L).isOk = false := by
  intro L
  induction L with
  | nil =>
    rintro acc ⟨v, hv, -⟩
    cases hv
  | cons w rest ih =>
    rintro acc ⟨v, hv, hneg⟩
    by_cases h1 : w < 0
    · simp [negIsoLoop, h1, Except.isOk, Except.toBool]
    · by_cases h2 : (-w) ∈ acc
      · simp [negIsoLoop, h1, h2, Except.isOk, Except.toBool]
      · have hv' : v ∈ rest := by
          rcases List.mem_cons.mp hv with h | h
          · subst h; exact absurd hneg h1
          · exact h
        simpa [negIsoLoop, h1, h2] using ih (acc ++ [-w]) ⟨v, hv', hneg⟩

theorem negIsoLoop_dup_acc_err : ∀ (L acc : List ℤ) (v : ℤ), v ∈ L → (-v) ∈ acc →
    (negIsoLoop acc L).isOk = false := by
  intro L
  induction L with
  | nil => intro acc v hv _; cases hv
  | cons w rest ih =>
    intro acc v hv hacc
    by_cases h1 : w < 0
    · simp [negIsoLoop, h1, Except.isOk, Except.toBool]
    · by_cases h2 : (-w) ∈ acc
      · simp [negIsoLoop, h1, h2, Except.isOk, Except.toBool]
      · have hv' : v ∈ rest := by
          rcases List.mem_cons.mp hv with h | h
          · subst h; exact absurd hacc h2
          · exact h
        simpa [negIsoLoop, h1, h2] using
          ih (acc ++ [-w]) v hv' (List.mem_append_left _ hacc)

theorem negIsoLoop_nodup_err : ∀ (L acc : List ℤ), ¬ L.Nodup →
    (negIsoLoop acc L).isOk = false := by
  intro L
  induction L with
  | nil => intro acc h; exact absurd List.nodup_nil h
  | cons w rest ih =>
    intro acc h
    by_cases h1 : w < 0
    · simp [negIsoLoop, h1, Except.isOk, Except.toBool]
    · by_cases h2 : (-w) ∈ acc
      · simp [negIsoLoop, h1, h2, Except.isOk, Except.toBool]
      · rw [List.nodup_cons] at h
        push_neg at h
        by_cases hmem : w ∈ rest
        · simpa [negIsoLoop, h1, h2] using
            negIsoLoop_dup_acc_err rest (acc ++ [-w]) w hmem
              (List.mem_append_right _ (List.mem_singleton_self _))
        · simpa [negIsoLoop, h1, h2] using ih (acc ++ [-w]) (h hmem)

/-- Claim C8: parsing `"1,2"` yields the sorted negative list `[-2,-1,0]`;
`",1"` and `"1,,2"` are fatal formatting errors; and any input containing a
negative value or a duplicate value is fatal. -/
theorem getNegativeIsotopeErrors_spec :
    getNegativeIsotopeErrors "1,2" = .ok [-2, -1, 0] ∧
      getNegativeIsotopeErrors ",1" = .error "Error in isotope_error parameter formatting" ∧
      getNegativeIsotopeErrors "1,,2" = .error "Error in isotope_error parameter formatting" ∧
      ∀ s : String, ((∃ v ∈ parsedInts s, v < 0) ∨ ¬ (parsedInts s).Nodup) →
        (getNegativeIsotopeErrors s).isOk = false := by
  refine ⟨by rfl, by rfl, by rfl, ?_⟩
  intro s hs
  rw [getNegativeIsotopeErrors]
  split_ifs with h1 h2 h3
  · rfl
  · rfl
  · exfalso
    have hdata : s.data = [] := by
      cases hd : s.data with
      | nil => rfl
      | cons c cs => rw [hd] at h3; cases h3
    have hp : parsedInts s = [0] := by rw [parsedInts, hdata]; rfl
    rcases hs with ⟨v, hv, hneg⟩ | hnd
    · rw [hp] at hv
      rw [List.mem_singleton] at hv
      omega
    · rw [hp] at hnd
      exact hnd (List.nodup_singleton 0)
  · have hfalse : (negIsoLoop [0] (parsedInts s)).isOk = false := by
      rcases hs with h | h
      · exact negIsoLoop_neg_err _ _ h
      · exact negIsoLoop_nodup_err _ _ h
    cases hloop : negIsoLoop [0] (parsedInts s) with
    | ok acc =>
      rw [hloop] at hfalse
      cases hfalse
    | error e =>
      simp [Except.map, hloop, Except.isOk, Except.toBool]

/-- Witness for claim C8: the input `"-3"` parses to a list containing a
negative value, so the run aborts. -/
theorem getNegativeIsotopeErrors_spec_witness :
    (getNegativeIsotopeErrors "-3").isOk = false :=
  getNegativeIsotopeErrors_spec.2.2.2 "-3" (Or.inl ⟨-3, by decide, by decide⟩)

theorem fillLoop_obs_congr (p : FillParams) : ∀ (l : List (ℚ × ℚ)) (st₁ st₂ : FillState),
    st₁.peaks = st₂.peaks → st₁.largestMz = st₂.largestMz →
    st₁.highestIntensity = st₂.highestIntensity →
    (fillLoop p l st₁).peaks = (fillLoop p l st₂).peaks ∧
      (fillLoop p l st₁).largestMz = (fillLoop p l st₂).largestMz ∧
      (fillLoop p l st₁).highestIntensity = (fillLoop p l st₂).highestIntensity := by
  intro l
  induction l with
  | nil => intro st₁ st₂ h1 h2 h3; exact ⟨h1, h2, h3⟩
  | cons pk rest ih =>
    intro st₁ st₂ h1 h2 h3
    refine ih (fillStep p st₁ pk) (fillStep p st₂ pk) ?_ ?_ ?_ <;>
      · rw [fillStep, fillStep]
        split_ifs <;> simp [retainStep, h1, h2, h3]

/-- Claim C6, amended: `experimental_mass_cut_off` is
`(precursor_mz - proton) * charge + proton + 50`, and in the normal
(non-skip) fill loop every peak at or above the cutoff bumps the
range-skipped counter by exactly one and contributes nothing to the peaks
array: the counter grows by the number of such peaks and the array equals
the one obtained from the below-cutoff peaks alone.  (In skip-preprocessing
mode such peaks are discarded without being counted.) -/
theorem fillLoop_range_cutoff (p : FillParams) : ∀ (l : List (ℚ × ℚ)) (st : FillState),
    cutOff p = (p.precursorMz - p.massProton) * p.charge + p.massProton + 50 ∧
      (fillLoop p l st).numRangeSkipped = st.numRangeSkipped +
        (l.filter (fun pk => decide (cutOff p ≤ pk.1))).length ∧
      (fillLoop p l st).peaks =
        (fillLoop p (l.filter (fun pk => !decide (cutOff p ≤ pk.1))) st).peaks := by
  intro l
  induction l with
  | nil => intro st; exact ⟨rfl, rfl, rfl⟩
  | cons pk rest ih =>
    intro st
    refine ⟨rfl, ?_, ?_⟩
    · by_cases h : cutOff p ≤ pk.1
      · have hstep : fillStep p st pk = { st with numRangeSkipped := st.numRangeSkipped + 1 } := by
          rw [fillStep, if_pos h]
        show (fillLoop p rest (fillStep p st pk)).numRangeSkipped = _
        rw [hstep, (ih _).2.1]
        simp [List.filter_cons, h]
        omega
      · have hnr : (fillStep p st pk).numRangeSkipped = st.numRangeSkipped := by
          rw [fillStep, if_neg h]
          split_ifs <;> rfl
        show (fillLoop p rest (fillStep p st pk)).numRangeSkipped = _
        rw [(ih _).2.1, hnr]
        simp [List.filter_cons, h]
    · by_cases h : cutOff p ≤ pk.1
      · have hstep : fillStep p st pk = { st with numRangeSkipped := st.numRangeSkipped + 1 } := by
          rw [fillStep, if_pos h]
        show (fillLoop p rest (fillStep p st pk)).peaks = _
        rw [hstep, (ih _).2.2]
        have hdrop : (pk :: rest).filter (fun pk => !decide (cutOff p ≤ pk.1)) =
            rest.filter (fun pk => !decide (cutOff p ≤ pk.1)) := by
          simp [List.filter_cons, h]
        rw [hdrop]
        exact (fillLoop_obs_congr p (rest.filter (fun pk => !decide (cutOff p ≤ pk.1)))
          { st with numRangeSkipped := st.numRangeSkipped + 1 } st rfl rfl rfl).1
      · have hkeep : (pk :: rest).filter (fun pk => !decide (cutOff p ≤ pk.1)) =
            pk :: rest.filter (fun pk => !decide (cutOff p ≤ pk.1)) := by
          simp [List.filter_cons, h]
        rw [hkeep]
        show (fillLoop p rest (fillStep p st pk)).peaks =
          (fillLoop p (rest.filter _) (fillStep p st pk)).peaks
        exact (ih _).2.2

/-- Claim C4, amended: in skip-preprocessing mode the fill pass performs no
square root, no precursor removal, no deisotoping and no normalization: each
bin of the resulting array is exactly the maximum raw intensity of the
retained (below-cutoff) peaks falling in that bin (0 if none).  Background
subtraction and integer quantization are still applied to this array
afterwards. -/
theorem skipFill_buckets (cutoff : ℚ) (m2b : ℚ → ℕ) (b : ℕ) :
    ∀ (l : List (ℚ × ℚ)) (st : FillState),
      (skipFill cutoff m2b l st).peaks b =
        (l.filter (fun pk => !decide (cutoff ≤ pk.1) && decide (m2b pk.1 = b))).foldl
          (fun a pk => max a pk.2) (st.peaks b) := by
  intro l
  induction l with
  | nil => intro st; rfl
  | cons pk rest ih =>
    intro st
    by_cases h : cutoff ≤ pk.1
    · have hstep : skipStep cutoff m2b st pk = st := by rw [skipStep, if_pos h]
      show (skipFill cutoff m2b rest (skipStep cutoff m2b st pk)).peaks b = _
      rw [hstep, ih st]
      simp [List.filter_cons, h]
    · by_cases hb : m2b pk.1 = b
      · have hpeaks : (skipStep cutoff m2b st pk).peaks b = max (st.peaks b) pk.2 := by
          rw [skipStep, if_neg h]
          split_ifs with hlt
          · show (if b = m2b pk.1 then pk.2 else st.peaks b) = max (st.peaks b) pk.2
            rw [if_pos hb.symm]
            have hlt' : st.peaks b < pk.2 := by rw [← hb]; exact hlt
            exact (max_eq_right (le_of_lt hlt')).symm
          · have hge : pk.2 ≤ st.peaks b := by rw [← hb]; exact le_of_not_lt hlt
            exact (max_eq_left hge).symm
        show (skipFill cutoff m2b rest (skipStep cutoff m2b st pk)).peaks b = _
        rw [ih _, hpeaks]
        simp [List.filter_cons, h, hb]
      · have hpeaks : (skipStep cutoff m2b st pk).peaks b = st.peaks b := by
          rw [skipStep, if_neg h]
          split_ifs with hlt
          · show (if b = m2b pk.1 then pk.2 else st.peaks b) = st.peaks b
            rw [if_neg (fun hc => hb hc.symm)]
          · rfl
        show (skipFill cutoff m2b rest (skipStep cutoff m2b st pk)).peaks b = _
        rw [ih _, hpeaks]
        simp [List.filter_cons, h, hb]

/-- Claim C4, counterexample: with skip-preprocessing, two retained peaks of
raw intensities 1 and 4 land in bins 0 and 1, but the cache is then built
from `SubtractBackground` of that array, which turns bin 0's value from 1
into `49/50`: the resulting cache does not hold the raw per-bin maxima. -/
theorem skip_mode_still_subtracts :
    (skipFill 10 cexMass2bin cexSkipPeakList initFillState).peaks 0 = 1 ∧
      subtractBackground ((skipFill 10 cexMass2bin cexSkipPeakList initFillState).peaks)
        2 75 0 = 49 / 50 ∧
      (49 / 50 : ℚ) ≠ 1 := by
  have h0 : (skipFill 10 cexMass2bin cexSkipPeakList initFillState).peaks 0 = 1 := by
    norm_num [skipFill, skipStep, cexSkipPeakList, cexMass2bin, initFillState, List.foldl]
  have h1 : (skipFill 10 cexMass2bin cexSkipPeakList initFillState).peaks 1 = 4 := by
    norm_num [skipFill, skipStep, cexSkipPeakList, cexMass2bin, initFillState, List.foldl]
  refine ⟨h0, ?_, by norm_num⟩
  norm_num [subtractBackground, runningSums, sumTo, h0, h1,
    show ((-76 : ℤ)).toNat = 0 from rfl]

/-- Claim C6, counterexample: in skip-preprocessing mode a peak at or above
`experimental_mass_cut_off` (here cutoff 500, peak at m/z 1000) is discarded
by a bare `continue` — the range-skipped counter stays 0 although one peak
was beyond the cutoff. -/
theorem skip_mode_range_not_counted :
    (skipFill (experimentalMassCutOff 450 0 1) (fun _ => 0) [((1000 : ℚ), (5 : ℚ))]
        initFillState).numRangeSkipped = 0 ∧
      (([((1000 : ℚ), (5 : ℚ))]).filter
        (fun pk => decide (experimentalMassCutOff 450 0 1 ≤ pk.1))).length = 1 ∧
      (0 : ℕ) ≠ 1 := by
  refine ⟨?_, ?_, by norm_num⟩
  · norm_num [skipFill, skipStep, experimentalMassCutOff, initFillState, List.foldl]
  · norm_num [List.filter, experimentalMassCutOff]

theorem updCell_nonneg {st : DPState} {r c : ℤ} {v : ℚ} (hst : DPNonneg st)
    (hv : 0 ≤ v) : DPNonneg (updCell st r c v) := by
  intro r' c'
  rw [updCell]
  split_ifs
  · exact hv
  · exact hst r' c'

theorem foldl_preserve {α : Type} (P : DPState → Prop) (f : DPState → α → DPState) :
    ∀ (l : List α) (st : DPState), P st → (∀ st x, x ∈ l → P st → P (f st x)) →
      P (l.foldl f st) := by
  intro l
  induction l with
  | nil => intro st h _; exact h
  | cons x xs ih =>
    intro st h hf
    exact ih (f st x) (hf st x (List.mem_cons_self x xs) h)
      (fun st' y hy => hf st' y (List.mem_cons_of_mem x hy))

theorem foldl_add_nonneg (g : ℕ → ℚ) :
    ∀ (l : List ℕ) (a : ℚ), 0 ≤ a → (∀ de ∈ l, 0 ≤ g de) →
      0 ≤ l.foldl (fun s de => s + g de) a := by
  intro l
  induction l with
  | nil => intro a ha _; exact ha
  | cons x xs ih =>
    intro a ha hg
    exact ih (a + g x) (add_nonneg ha (hg x (List.mem_cons_self x xs)))
      (fun de hde => hg de (List.mem_cons_of_mem x hde))

/-- With nonnegative frequency tables every count in the matrix stays
nonnegative through all three loops. -/
theorem finalDP_nonneg (inp : ScoreCountInput)
    (hN : ∀ de < inp.nAA, 0 ≤ inp.aaFreqN de)
    (hI : ∀ de < inp.nAA, 0 ≤ inp.aaFreqI de)
    (hC : ∀ de < inp.nAA, 0 ≤ inp.aaFreqC de) :
    DPNonneg (finalDP inp) := by
  have h0 : DPNonneg (updCell (fun _ _ => 0) (initCountRow inp) (initCountCol inp) 1) :=
    updCell_nonneg (fun _ _ => le_refl 0) zero_le_one
  have hnterm : DPNonneg (afterNterm inp) := by
    rw [afterNterm]
    refine updCell_nonneg ?_ (le_refl 0)
    refine foldl_preserve DPNonneg (ntermStep inp) (List.range inp.nAA) _ h0 ?_
    intro st de hde hst
    rw [ntermStep]
    split_ifs
    · exact updCell_nonneg hst
        (add_nonneg (hst _ _)
          (mul_nonneg (hst _ _) (hN de (List.mem_range.mp hde))))
    · exact hst
  have hmain : DPNonneg (afterMain inp) := by
    rw [afterMain]
    refine foldl_preserve DPNonneg (mainColStep inp) (maList inp) _ hnterm ?_
    intro st ma _ hst
    rw [mainColStep]
    refine foldl_preserve DPNonneg _ (rowList inp) _ hst ?_
    intro st' row _ hst'
    rw [mainRowStep]
    refine updCell_nonneg hst' ?_
    rw [innerCellI]
    refine foldl_add_nonneg _ (List.range inp.nAA) _ (hst' _ _) ?_
    intro de hde
    exact mul_nonneg (hst' _ _) (hI de (List.mem_range.mp hde))
  rw [finalDP]
  refine foldl_preserve DPNonneg _ (rowList inp) _ hmain ?_
  intro st row _ hst
  rw [ctermRowStep]
  refine updCell_nonneg hst ?_
  rw [ctermCell]
  refine foldl_add_nonneg _ (List.range inp.nAA) _ (le_refl 0) ?_
  intro de hde
  exact mul_nonneg (hst _ _) (hC de (List.mem_range.mp hde))

theorem foldl_add_shift (f : ℕ → ℚ) :
    ∀ (l : List ℕ) (a : ℚ), l.foldl (fun t r => t + f r) a =
      a + l.foldl (fun t r => t + f r) 0 := by
  intro l
  induction l with
  | nil => intro a; simp
  | cons x xs ih =>
    intro a
    rw [List.foldl_cons, List.foldl_cons, ih (a + f x), ih (0 + f x)]
    ring

theorem suffixFrom_succ (f : ℕ → ℚ) (row n : ℕ) (h : row < n) :
    suffixFrom f row n = f row + suffixFrom f (row + 1) n := by
  have hm : n - row = (n - (row + 1)) + 1 := by omega
  rw [suffixFrom, hm, List.range_succ_eq_map]
  rw [List.map_cons, List.map_map, List.foldl_cons]
  have hmap : (fun k => row + k) ∘ Nat.succ = fun k => (row + 1) + k := by
    funext k
    simp [Nat.succ_eq_add_one]
    omega
  rw [hmap, foldl_add_shift]
  rw [suffixFrom]
  ring_nf

theorem suffixFrom_nonneg (f : ℕ → ℚ) (hf : ∀ r, 0 ≤ f r) (row n : ℕ) :
    0 ≤ suffixFrom f row n :=
  foldl_add_nonneg f _ 0 (le_refl 0) (fun de _ => hf de)

/-- Claim C1: for every evidence vector, peptide mass and valid (nonnegative)
amino-acid frequency tables, the p-value table produced by `calcScoreCount`
is non-increasing as a function of score: each row of the table is at least
the next row (higher row index = higher score, since
`row = scoreOffsetObs + score`). -/
theorem calcScoreCount_pValue_monotone (inp : ScoreCountInput)
    (hN : ∀ de < inp.nAA, 0 ≤ inp.aaFreqN de)
    (hI : ∀ de < inp.nAA, 0 ≤ inp.aaFreqI de)
    (hC : ∀ de < inp.nAA, 0 ≤ inp.aaFreqC de)
    (row : ℕ) (hrow : row + 1 < (nRow inp).toNat) :
    pValueScoreObs inp (row + 1) ≤ pValueScoreObs inp row := by
  have hfin := finalDP_nonneg inp hN hI hC
  have hcnt : ∀ r : ℕ, 0 ≤ scoreCountN inp r := fun r => hfin _ _
  have htot : 0 ≤ totalCount inp := suffixFrom_nonneg _ hcnt 0 _
  have hsplit := suffixFrom_succ (scoreCountN inp) row (nRow inp).toNat (by omega)
  have hnum : suffixFrom (scoreCountN inp) (row + 1) (nRow inp).toNat -
      scoreCountN inp (row + 1) / 2 ≤
      suffixFrom (scoreCountN inp) row (nRow inp).toNat - scoreCountN inp row / 2 := by
    rw [hsplit]
    have h1 := hcnt row
    have h2 := hcnt (row + 1)
    linarith
  rw [pValueScoreObs, pValueScoreObs]
  rcases eq_or_lt_of_le htot with h0 | hpos
  · rw [← h0]
    simp
  · exact (div_le_div_iff_of_pos_right hpos).mpr hnum

/-- Witness for claim C1 on `pValueWitnessInput`, comparing the p-values of
the scores at rows 0 and 1. -/
theorem calcScoreCount_pValue_monotone_witness :
    pValueScoreObs pValueWitnessInput 1 ≤ pValueScoreObs pValueWitnessInput 0 :=
  calcScoreCount_pValue_monotone pValueWitnessInput (fun _ _ => zero_le_one)
    (fun _ _ => zero_le_one) (fun _ _ => zero_le_one) 0 (by decide)

end CruxTide
